import Mathlib

/-!
# Verification of the DLD unit-finder matching core

Shallow embedding of the matching core of `src/app.py` (phrase extraction,
candidate search, ranking, deduplication) together with the registry store
built by `src/convert_csv_to_db.py`.

Modelling conventions:
* The registry store (`units` SQLite table) is a list of `Row` in physical scan
  order; `SELECT * FROM units WHERE LOWER(f) LIKE '%p%' LIMIT n` is modelled as
  filtering the list by case-folded substring containment and taking the first
  `n` hits (the converter stores every column as TEXT and creates no primary
  key, so an unqualified scan returns rows in insertion order).  `LIKE`
  metacharacters inside the bound pattern are not modelled: patterns are
  treated as plain substrings, which is the behaviour for the alphanumeric
  phrases the extractor produces.
* Python floats are modelled as exact rationals (`ℚ`); `round(x, 1)` is
  modelled as round-half-even at one decimal digit.
* Python dictionaries produced by the scraper are modelled by the `Listing`
  structure, one optional field per key the matching core reads.
-/

/-- Python's truthiness-based `a or b` on strings: `b` when `a` is empty. -/
def pyOr (a b : String) : String := if a = "" then b else a

/-- `str.lower()`: character-wise lowercasing (ASCII case; the Arabic text in
the registry has no case in either Python or this model). -/
def pyLower (s : String) : String := ⟨s.data.map Char.toLower⟩

/-- `str.strip()`: drop leading and trailing whitespace. -/
def pyStrip (s : String) : String :=
  ⟨((s.data.dropWhile Char.isWhitespace).reverse.dropWhile Char.isWhitespace).reverse⟩

/-- Split a character list at every separator character. -/
def splitChars (p : Char → Bool) : List Char → List (List Char)
  | [] => [[]]
  | c :: t =>
    match splitChars p t with
    | [] => [[]]
    | g :: gs => if p c then [] :: g :: gs else (c :: g) :: gs

/-- Split a string at characters satisfying `p`, keeping empty pieces. -/
def pySplitOn (p : Char → Bool) (s : String) : List String :=
  (splitChars p s.data).map fun g => ⟨g⟩

/-- Python's `str.split()` with no separator: split on whitespace runs,
dropping empty pieces. -/
def pySplit (s : String) : List String :=
  (pySplitOn (fun c => c.isWhitespace) s).filter fun t => t ≠ ""

/-- `sep.join(parts)`. -/
def joinSep (sep : String) : List String → String
  | [] => ""
  | [x] => x
  | x :: y :: xs => x ++ sep ++ joinSep sep (y :: xs)

/-- Contiguous-sublist test on character lists (Python's `needle in hay`). -/
def subList (n : List Char) : List Char → Bool
  | [] => n.isEmpty
  | c :: t => n.isPrefixOf (c :: t) || subList n t

/-- Python's substring containment `needle in hay`. -/
def pyIn (needle hay : String) : Bool := subList needle.data hay.data

/-- One record of the `units` table.  `convert_csv_to_db.py` stores every CSV
column as TEXT with no NOT NULL constraint, so each match-relevant field is an
optional string; the remaining ~37 columns are opaque payload carried through
unchanged. -/
structure Row where
  project_name_en : Option String := none
  master_project_en : Option String := none
  area_name_en : Option String := none
  property_type_en : Option String := none
  property_sub_type_en : Option String := none
  rooms : Option String := none
  actual_area : Option String := none
  unit_number : Option String := none
  land_number : Option String := none
  payload : List (String × String) := []
deriving DecidableEq

/-- The scraped listing dictionary (`prop`), one optional field per key that
`extract_search_phrases`, `find_units` or `rank_results` reads.  `bedrooms` is
the integer the scraper stores; `area_sqft` is modelled as an exact rational. -/
structure Listing where
  source_url : String := ""
  property_type : Option String := none
  bedrooms : Option Int := none
  area_sqft : Option ℚ := none
  title : Option String := none
  og_title : Option String := none
  name : Option String := none
  url_location : Option String := none
  sub_community : Option String := none
  community : Option String := none
  master_community : Option String := none
  dld_zone_name : Option String := none
  breadcrumbs : List String := []
  reference : Option String := none
  bathrooms : Option Int := none
deriving DecidableEq

/-! ## Phrase extractor (`extract_search_phrases`, app.py lines 344-409) -/

/-- Stop-word set used when cleaning the listing title. -/
def titleStopWords : List String :=
  ["for","sale","rent","in","at","a","an","bed","bedroom","bedrooms",
   "bathroom","bathrooms","with","and","buy","aed","sqft","sq","ft",
   "br","-","of","on","by","to","from","dubai","uae","property",
   "elegant","luxury","luxurious","beautiful","stunning","spacious",
   "brand","new","modern","exclusive","premium","amazing","gorgeous"]

/-- Source 1: address hierarchy `sub_community`, `community`, `master_community`. -/
def hierPhrases (l : Listing) : List String :=
  let sub := l.sub_community.getD ""
  let comm := l.community.getD ""
  let master := l.master_community.getD ""
  (if sub ≠ "" then [sub] else []) ++
  (if comm ≠ "" ∧ comm ≠ sub then [comm] else []) ++
  (if master ≠ "" ∧ master ≠ comm then [master] else [])

/-- Source 2: DLD zone name. -/
def zonePhrases (l : Listing) : List String :=
  if l.dld_zone_name.getD "" ≠ "" then [l.dld_zone_name.getD ""] else []

/-- `prop.get("title") or prop.get("og_title") or prop.get("name", "")`. -/
def usableTitle (l : Listing) : String :=
  pyOr (l.title.getD "") (pyOr (l.og_title.getD "") (l.name.getD ""))

/-- Tokens of the title after splitting on whitespace, comma, hyphen, slash
and pipe (the title regex split), then the stop-word and length-1 filter.
Python collapses separator runs while this split produces empty pieces
between adjacent separators; the length filter removes them in both. -/
def titleWords (t : String) : List String :=
  (pySplitOn (fun c => c.isWhitespace || c == ',' || c == '-' || c == '/' || c == '|') t).filter
    fun w => !(titleStopWords.contains (pyLower w)) && w.length > 1

/-- Source 3: the cleaned title, emitted only when some word survives. -/
def titlePhrases (l : Listing) : List String :=
  let t := usableTitle l
  if t ≠ "" then
    let ws := titleWords t
    if ws ≠ [] then [joinSep " " ws] else []
  else []

/-- Left/right splits of the url_location tokens; for each split index the
right part is appended before the left part, each kept only when longer than
2 characters. -/
def urlSplitPhrases (parts : List String) : List String :=
  (List.range' 1 (parts.length - 1)).flatMap fun k =>
    let left := joinSep " " (parts.take k)
    let right := joinSep " " (parts.drop k)
    (if right.length > 2 then [right] else []) ++ (if left.length > 2 then [left] else [])

/-- Source 4: the url_location string followed by its splits. -/
def urlLocPhrases (l : Listing) : List String :=
  let u := l.url_location.getD ""
  if u ≠ "" then u :: urlSplitPhrases (pySplit u) else []

/-- Generic breadcrumb labels that are skipped. -/
def crumbGeneric : List String := ["dubai", "home", "buy", "rent", "properties", "uae"]

/-- Source 5: breadcrumb entries, trimmed, minus generic labels, length > 2. -/
def crumbPhrases (l : Listing) : List String :=
  l.breadcrumbs.flatMap fun crumb =>
    let c := pyStrip crumb
    if !(crumbGeneric.contains (pyLower c)) && c.length > 2 then [c] else []

/-- The phrase list in construction order, before deduplication (the
`phrases.append(...)` sequence of app.py lines 349-398). -/
def rawPhrases (l : Listing) : List String :=
  hierPhrases l ++ zonePhrases l ++ titlePhrases l ++ urlLocPhrases l ++ crumbPhrases l

/-- The final dedup pass: trim + lowercase each phrase, keep nonempty first
occurrences (`seen` set, app.py lines 400-409). -/
def dedupGo : List String → List String → List String
  | _, [] => []
  | seen, p :: rest =>
    let pl := pyLower (pyStrip p)
    if pl ≠ "" ∧ pl ∉ seen then pl :: dedupGo (pl :: seen) rest
    else dedupGo seen rest

/-- `extract_search_phrases(prop)` (app.py lines 344-409). -/
def extract_search_phrases (l : Listing) : List String :=
  dedupGo [] (rawPhrases l)

example : extract_search_phrases
    { sub_community := some "Farm Gardens 1", community := some "Farm Gardens",
      master_community := some "The Valley" } =
    ["farm gardens 1", "farm gardens", "the valley"] := by decide

example : extract_search_phrases { url_location := some "the valley farm gardens" } =
    ["the valley farm gardens", "valley farm gardens", "the",
     "farm gardens", "the valley", "gardens", "the valley farm"] := by decide

example : extract_search_phrases {} = [] := by decide

/-! ## Candidate searcher (`find_units`, app.py lines 412-530)

The store is queried with `LOWER(field) LIKE '%pattern%' LIMIT n`.  Besides the
plain search functions (`strat0` … `strat5`) an instrumented evaluator
`searchTrace` mirrors the imperative control flow of `find_units` and records,
for every `conn.execute` that runs, the index of the strategy issuing it. -/

/-- `LOWER(field) LIKE '%pat%'`: `NULL` never matches; otherwise case-folded
substring containment (`pat` is the already-prepared bound pattern). -/
def likeField (f : Option String) (pat : String) : Bool :=
  match f with
  | none => false
  | some s => pyIn pat (pyLower s)

/-- Single-field substring query with a LIMIT. -/
def q1 (store : List Row) (field : Row → Option String) (pat : String) (lim : Nat) : List Row :=
  (store.filter fun r => likeField (field r) pat).take lim

/-- Conjunctive two-field substring query with a LIMIT. -/
def q2 (store : List Row) (fA fB : Row → Option String) (pA pB : String) (lim : Nat) :
    List Row :=
  (store.filter fun r => likeField (fA r) pA && likeField (fB r) pB).take lim

/-- Strategy 0 (zone-anchored): zone+community against
`area_name_en`/`project_name_en`, then zone+master_community against
`area_name_en`/`master_project_en` when the first query found nothing. -/
def strat0 (store : List Row) (l : Listing) : List Row :=
  let zone := l.dld_zone_name.getD ""
  let community := pyOr (l.community.getD "") (l.sub_community.getD "")
  let partA :=
    if zone ≠ "" ∧ community ≠ "" then
      q2 store (fun r => r.area_name_en) (fun r => r.project_name_en)
        (pyLower zone) (pyLower community) 200
    else []
  if partA ≠ [] then partA
  else
    let master := l.master_community.getD ""
    if zone ≠ "" ∧ master ≠ "" then
      q2 store (fun r => r.area_name_en) (fun r => r.master_project_en)
        (pyLower zone) (pyLower master) 200
    else []

/-- First non-empty result of `f` along a list (a `for … if rows: break` loop). -/
def firstNonempty {α : Type} (f : α → List Row) : List α → List Row
  | [] => []
  | x :: xs =>
    let r := f x
    if r ≠ [] then r else firstNonempty f xs

/-- Strategy 1: each phrase against `project_name_en`, first hit wins. -/
def strat1 (store : List Row) (phrases : List String) : List Row :=
  firstNonempty (fun ph => q1 store (fun r => r.project_name_en) ph 100) phrases

/-- Strategy 2: every (master, project) split of the url_location tokens,
both parts longer than 2 characters, against
`project_name_en`/`master_project_en`. -/
def strat2 (store : List Row) (l : Listing) : List Row :=
  let u := l.url_location.getD ""
  if u ≠ "" then
    let parts := pySplit u
    firstNonempty
      (fun k =>
        let master := joinSep " " (parts.take k)
        let project := joinSep " " (parts.drop k)
        if project.length > 2 ∧ master.length > 2 then
          q2 store (fun r => r.project_name_en) (fun r => r.master_project_en)
            project master 100
        else [])
      (List.range' 1 (parts.length - 1))
  else []

/-- Strategy 3: phrases of length > 3 against `master_project_en`. -/
def strat3 (store : List Row) (phrases : List String) : List Row :=
  firstNonempty
    (fun ph => if ph.length > 3 then q1 store (fun r => r.master_project_en) ph 200 else [])
    phrases

/-- Strategy 4: phrases of length > 3 against `area_name_en`. -/
def strat4 (store : List Row) (phrases : List String) : List Row :=
  firstNonempty
    (fun ph => if ph.length > 3 then q1 store (fun r => r.area_name_en) ph 200 else [])
    phrases

/-- Noise words removed by strategy 5. -/
def noiseWords : List String :=
  ["the","and","for","villa","apartment","tower","building","residence",
   "residences","dubai","phase","block","cluster"]

/-- The significant words of one phrase for strategy 5. -/
def strat5Words (ph : String) : List String :=
  (pySplit ph).filter fun w => !(noiseWords.contains w) && w.length > 3

/-- Strategy 5: individual significant words against `project_name_en`. -/
def strat5 (store : List Row) (phrases : List String) : List Row :=
  firstNonempty
    (fun ph => firstNonempty (fun w => q1 store (fun r => r.project_name_en) w 100)
      (strat5Words ph))
    phrases

/-- A phrase loop that also logs strategy index `k` once per executed query. -/
def loopTrace {α : Type} (k : Nat) (f : α → List Row) : List α → List Row × List Nat
  | [] => ([], [])
  | x :: xs =>
    let r := f x
    if r ≠ [] then (r, [k])
    else
      let p := loopTrace k f xs
      (p.1, k :: p.2)

/-- As `loopTrace`, but a guard `g` may skip an iteration without querying. -/
def loopTraceGuard {α : Type} (k : Nat) (g : α → Prop) [DecidablePred g] (f : α → List Row) :
    List α → List Row × List Nat
  | [] => ([], [])
  | x :: xs =>
    if g x then
      let r := f x
      if r ≠ [] then (r, [k])
      else
        let p := loopTraceGuard k g f xs
        (p.1, k :: p.2)
    else loopTraceGuard k g f xs

/-- Instrumented strategy 0. -/
def strat0Trace (store : List Row) (l : Listing) : List Row × List Nat :=
  let zone := l.dld_zone_name.getD ""
  let community := pyOr (l.community.getD "") (l.sub_community.getD "")
  let p0a : List Row × List Nat :=
    if zone ≠ "" ∧ community ≠ "" then
      (q2 store (fun r => r.area_name_en) (fun r => r.project_name_en)
        (pyLower zone) (pyLower community) 200, [0])
    else ([], [])
  let master := l.master_community.getD ""
  if p0a.1 = [] ∧ zone ≠ "" ∧ master ≠ "" then
    (q2 store (fun r => r.area_name_en) (fun r => r.master_project_en)
      (pyLower zone) (pyLower master) 200, p0a.2 ++ [0])
  else p0a

/-- Instrumented strategy 2. -/
def strat2Trace (store : List Row) (l : Listing) : List Row × List Nat :=
  let u := l.url_location.getD ""
  if u ≠ "" then
    let parts := pySplit u
    loopTraceGuard 2
      (fun k => (joinSep " " (parts.drop k)).length > 2 ∧
        (joinSep " " (parts.take k)).length > 2)
      (fun k => q2 store (fun r => r.project_name_en) (fun r => r.master_project_en)
        (joinSep " " (parts.drop k)) (joinSep " " (parts.take k)) 100)
      (List.range' 1 (parts.length - 1))
  else ([], [])

/-- Instrumented strategy 5 (word loop nested in phrase loop; the outer loop
breaks as soon as the accumulator became non-empty). -/
def strat5Trace (store : List Row) : List String → List Row × List Nat
  | [] => ([], [])
  | ph :: rest =>
    let p := loopTrace 5 (fun w => q1 store (fun r => r.project_name_en) w 100)
      (strat5Words ph)
    if p.1 ≠ [] then p
    else
      let q := strat5Trace store rest
      (q.1, p.2 ++ q.2)

/-- The full search of `find_units` (app.py lines 426-528), instrumented:
returns the accumulated `results` list and the log of executed queries.
Strategy 0 extends `results` when it hits; strategy 1 runs unconditionally;
strategies 2-5 are each guarded by `if not results`. -/
def searchTrace (store : List Row) (l : Listing) (phrases : List String) :
    List Row × List Nat :=
  let p0 := strat0Trace store l
  let p1 := loopTrace 1 (fun ph => q1 store (fun r => r.project_name_en) ph 100) phrases
  let res1 := p0.1 ++ p1.1
  let p2 := if res1 = [] then strat2Trace store l else ([], [])
  let res2 := res1 ++ p2.1
  let p3 :=
    if res2 = [] then
      loopTraceGuard 3 (fun ph => ph.length > 3)
        (fun ph => q1 store (fun r => r.master_project_en) ph 200) phrases
    else ([], [])
  let res3 := res2 ++ p3.1
  let p4 :=
    if res3 = [] then
      loopTraceGuard 4 (fun ph => ph.length > 3)
        (fun ph => q1 store (fun r => r.area_name_en) ph 200) phrases
    else ([], [])
  let res4 := res3 ++ p4.1
  let p5 := if res4 = [] then strat5Trace store phrases else ([], [])
  (res4 ++ p5.1, p0.2 ++ p1.2 ++ p2.2 ++ p3.2 ++ p4.2 ++ p5.2)

/-- The candidate rows `find_units` passes to `rank_results`. -/
def searchRows (store : List Row) (l : Listing) (phrases : List String) : List Row :=
  (searchTrace store l phrases).1

/-- The strategy index of every query `find_units` executes, in order. -/
def searchLog (store : List Row) (l : Listing) (phrases : List String) : List Nat :=
  (searchTrace store l phrases).2

/-! ## Numeric helpers for the ranker -/

/-- Value of a digit string. -/
def digitsVal (ds : List Char) : Nat := ds.foldl (fun n c => 10 * n + (c.toNat - 48)) 0

/-- Exponent suffix of a float literal (`e±ddd`), applied to mantissa `m`. -/
def applyExp (m : ℚ) (neg : Bool) (ds : List Char) : Option ℚ :=
  if ds ≠ [] ∧ ds.all Char.isDigit then
    some (if neg then m / 10 ^ digitsVal ds else m * 10 ^ digitsVal ds)
  else none

/-- Parse the optional exponent part after the mantissa; any other trailing
characters make the literal invalid. -/
def parseExpPart (m : ℚ) : List Char → Option ℚ
  | [] => some m
  | c :: rest =>
    if c == 'e' || c == 'E' then
      match rest with
      | '+' :: ds => applyExp m false ds
      | '-' :: ds => applyExp m true ds
      | ds => applyExp m false ds
    else none

/-- Unsigned decimal float literal: digits, optional fraction, optional
exponent; at least one digit required in the mantissa. -/
def parseUnsigned (cs : List Char) : Option ℚ :=
  let ip := cs.takeWhile Char.isDigit
  let rest := cs.dropWhile Char.isDigit
  match rest with
  | '.' :: rest2 =>
    let fp := rest2.takeWhile Char.isDigit
    let rest3 := rest2.dropWhile Char.isDigit
    if ip = [] ∧ fp = [] then none
    else parseExpPart ((digitsVal ip : ℚ) + (digitsVal fp : ℚ) / 10 ^ fp.length) rest3
  | _ => if ip = [] then none else parseExpPart (digitsVal ip : ℚ) rest

/-- Python's `float(str)` on decimal literals, as an exact rational: leading
and trailing whitespace stripped, optional sign, digits with optional fraction
and exponent; `None` when the coercion would raise `ValueError`.  (`inf`,
`nan` and underscore-grouped literals are not modelled; registry numerics are
plain decimal strings.) -/
def pyFloat (s : String) : Option ℚ :=
  match (pyStrip s).data with
  | '+' :: cs => parseUnsigned cs
  | '-' :: cs => (parseUnsigned cs).map fun q => -q
  | cs => parseUnsigned cs

/-- Python's `int(float)`: truncation toward zero. -/
def ratTrunc (q : ℚ) : ℤ := q.num.tdiv q.den

/-- Round to the nearest integer, ties to the even neighbour (Python's
`round`). -/
def roundHalfEven (x : ℚ) : ℤ :=
  let f := ⌊x⌋
  if x - f < 1 / 2 then f
  else if x - f > 1 / 2 then f + 1
  else if f % 2 = 0 then f else f + 1

/-- Python's `round(x, 1)` on the exact-rational model of the score. -/
def pyRound1 (x : ℚ) : ℚ := (roundHalfEven (10 * x) : ℚ) / 10

/-! ## `difflib.SequenceMatcher(None, a, b).ratio()`

Modelled without junk heuristics: `isjunk` is `None` in app.py and the
autojunk popularity rule only triggers for second strings of length ≥ 200,
which the project-name field never reaches.  Without junk the extension loops
of `find_longest_match` are no-ops, so the longest block in a window is the
maximal-length common substring with the least `(i, j)` start. -/

/-- Length of the common prefix run of two character lists. -/
def runLen : List Char → List Char → Nat
  | x :: xt, y :: yt => if x = y then runLen xt yt + 1 else 0
  | _, _ => 0

/-- `find_longest_match` on the window `[alo, ahi) × [blo, bhi)`: the triple
`(i, j, size)` of the longest common block, earliest `(i, j)` first (the
Python scan updates only on strictly larger sizes). -/
def findLongest (a b : List Char) (alo ahi blo bhi : Nat) : Nat × Nat × Nat :=
  ((List.range' alo (ahi - alo)).flatMap fun i =>
    (List.range' blo (bhi - blo)).map fun j =>
      (i, j, min (runLen (a.drop i) (b.drop j)) (min (ahi - i) (bhi - j))))
    |>.foldl (fun best c => if best.2.2 < c.2.2 then c else best) (alo, blo, 0)

/-- Total size of the matching blocks (`get_matching_blocks`), computed by the
usual recursion around the longest block.  The window measure shrinks by at
least 1 at each level, so any fuel above `(ahi - alo) + (bhi - blo)` is enough
for the recursion to run to completion. -/
def blocksTotal (a b : List Char) : Nat → Nat → Nat → Nat → Nat → Nat
  | 0, _, _, _, _ => 0
  | fuel + 1, alo, ahi, blo, bhi =>
    let best := findLongest a b alo ahi blo bhi
    if best.2.2 = 0 then 0
    else
      blocksTotal a b fuel alo best.1 blo best.2.1 + best.2.2 +
        blocksTotal a b fuel (best.1 + best.2.2) ahi (best.2.1 + best.2.2) bhi

/-- `SequenceMatcher.ratio()`: twice the matched total over the summed
lengths (`1` for two empty strings). -/
def sequenceRatio (sa sb : String) : ℚ :=
  let a := sa.data
  let b := sb.data
  if a.length + b.length = 0 then 1
  else
    2 * (blocksTotal a b (a.length + b.length + 1) 0 a.length 0 b.length : ℚ) /
      (a.length + b.length : ℚ)

/-! ## Ranker (`rank_results`, app.py lines 533-622) -/

/-- Stop words removed from the area-term set. -/
def rankStopWords : List String :=
  ["the","and","for","of","in","at","a","an","to","by","on","from"]

/-- First-occurrence deduplication with a `seen` accumulator (a Python `set`
built by insertion). -/
def edGo : List String → List String → List String
  | _, [] => []
  | seen, x :: xs => if x ∈ seen then edGo seen xs else x :: edGo (x :: seen) xs

/-- `all_terms`: the distinct lower-cased words of all phrases minus the stop
words (summing `5` per matching member is order-independent, so a list of the
distinct words models the Python set faithfully). -/
def allTerms (phrases : List String) : List String :=
  (edGo [] (phrases.flatMap fun p => pySplit (pyLower p))).filter
    fun w => !(rankStopWords.contains w)

/-- `full_search = " ".join(search_phrases).lower()`. -/
def fullSearch (phrases : List String) : String := pyLower (joinSep " " phrases)

/-- Property-type term: +15 when the listing type is a substring of the
candidate's type or subtype (the `elif` villa branch repeats the subtype
test for `ptype == "villa"` and can never fire on its own). -/
def ptypeScore (l : Listing) (r : Row) : ℚ :=
  let pt := pyLower (l.property_type.getD "")
  let dbType := pyLower (r.property_type_en.getD "")
  let dbSub := pyLower (r.property_sub_type_en.getD "")
  if pt ≠ "" then
    if pyIn pt dbType || pyIn pt dbSub then 15
    else if pt = "villa" ∧ pyIn "villa" dbSub then 15
    else 0
  else 0

/-- Bedroom term: +10 when `int(beds) == int(float(db_rooms))`; a falsy rooms
field or a failed coercion contributes 0. -/
def bedroomScore (l : Listing) (r : Row) : ℚ :=
  match l.bedrooms, r.rooms with
  | some b, some s =>
    if s ≠ "" then
      match pyFloat s with
      | some q => if b = ratTrunc q then 10 else 0
      | none => 0
    else 0
  | _, _ => 0

/-- Area-size term: +12 when the candidate's m² area converted at 10.764
lands within 15% of the listing's sqft (falsy values and failed coercions
contribute 0). -/
def sizeScore (l : Listing) (r : Row) : ℚ :=
  match l.area_sqft, r.actual_area with
  | some sqft, some s =>
    if sqft ≠ 0 ∧ s ≠ "" then
      match pyFloat s with
      | some a => if |sqft - a * (10764 / 1000 : ℚ)| < sqft * (15 / 100 : ℚ) then 12 else 0
      | none => 0
    else 0
  | _, _ => 0

/-- The accumulated raw score of one candidate row (the `score` local of
`rank_results` just before rounding), with the terms in accumulation order. -/
def rawScore (l : Listing) (search_phrases : List String) (r : Row) : ℚ :=
  let project := pyLower (r.project_name_en.getD "")
  let master := pyLower (r.master_project_en.getD "")
  let area := pyLower (r.area_name_en.getD "")
  let headWords : ℚ := (max (pySplit (search_phrases.headD "")).length 1 : Nat)
  let phraseProject :=
    (search_phrases.map fun ph =>
      if pyIn ph project then 60 * (((pySplit ph).length : ℚ) / headWords) else 0).sum
  let sim := if project ≠ "" then sequenceRatio (fullSearch search_phrases) project * 30 else 0
  let phraseMaster :=
    (search_phrases.map fun ph =>
      if pyIn ph master then 25 * (((pySplit ph).length : ℚ) / headWords) else 0).sum
  let areaT := ((allTerms search_phrases).map fun t => if pyIn t area then (5 : ℚ) else 0).sum
  let zone := pyLower (l.dld_zone_name.getD "")
  let zoneT := if zone ≠ "" ∧ pyIn zone area then (20 : ℚ) else 0
  phraseProject + sim + phraseMaster + areaT + zoneT +
    ptypeScore l r + bedroomScore l r + sizeScore l r

/-- A candidate dictionary after `d["_match_score"] = round(score, 1)`. -/
structure Scored where
  row : Row
  match_score : ℚ
deriving DecidableEq

/-- The sort relation of `scored.sort(key=..., reverse=True)`: `a` may come
before `b` when its score is at least `b`'s. -/
def scoreGe (a b : Scored) : Prop := b.match_score ≤ a.match_score

instance : DecidableRel scoreGe := fun a b =>
  decidable_of_iff (b.match_score ≤ a.match_score) Iff.rfl

instance : IsTotal Scored scoreGe := ⟨fun a b => le_total b.match_score a.match_score⟩

instance : IsTrans Scored scoreGe := ⟨fun _ _ _ h h' => le_trans h' h⟩

/-- The scored candidates in retrieval order (the `scored` list). -/
def scoredOf (rows : List Row) (l : Listing) (phrases : List String) : List Scored :=
  rows.map fun r => ⟨r, pyRound1 (rawScore l phrases r)⟩

/-- `scored.sort(key=lambda x: x["_match_score"], reverse=True)`: a stable
descending sort; insertion sort with `scoreGe` computes exactly the unique
stable result. -/
def sortedOf (rows : List Row) (l : Listing) (phrases : List String) : List Scored :=
  List.insertionSort scoreGe (scoredOf rows l phrases)

/-- The business key used for deduplication. -/
def rowKey (r : Row) : Option String × Option String × Option String :=
  (r.unit_number, r.land_number, r.project_name_en)

/-- One pass over the sorted list keeping the first occurrence of each key. -/
def dedupScored (seen : List (Option String × Option String × Option String)) :
    List Scored → List Scored
  | [] => []
  | d :: rest =>
    if rowKey d.row ∈ seen then dedupScored seen rest
    else d :: dedupScored (rowKey d.row :: seen) rest

/-- `rank_results(rows, prop, search_phrases)` (app.py lines 533-622). -/
def rank_results (rows : List Row) (l : Listing) (search_phrases : List String) :
    List Scored :=
  dedupScored [] (sortedOf rows l search_phrases)

/-- `find_units(conn, prop)` (app.py lines 412-530). -/
def find_units (store : List Row) (l : Listing) : List Scored :=
  let phrases := extract_search_phrases l
  if phrases = [] then []
  else (rank_results (searchRows store l phrases) l phrases).take 20

/-! ## Control-flow lemmas for the search chain -/

theorem loopTrace_fst {α : Type} (k : Nat) (f : α → List Row) (xs : List α) :
    (loopTrace k f xs).1 = firstNonempty f xs := by
  induction xs with
  | nil => rfl
  | cons x xs ih =>
    simp only [loopTrace, firstNonempty]
    by_cases h : f x = []
    · simp [h, ih]
    · simp [h]

theorem loopTraceGuard_fst {α : Type} (k : Nat) (g : α → Prop) [DecidablePred g]
    (f : α → List Row) (xs : List α) :
    (loopTraceGuard k g f xs).1 = firstNonempty (fun x => if g x then f x else []) xs := by
  induction xs with
  | nil => rfl
  | cons x xs ih =>
    simp only [loopTraceGuard, firstNonempty]
    by_cases hg : g x
    · by_cases h : f x = []
      · simp [hg, h, ih]
      · simp [hg, h]
    · simp [hg, ih]

theorem loopTrace_log {α : Type} (k : Nat) (f : α → List Row) (xs : List α) :
    ∀ j ∈ (loopTrace k f xs).2, j = k := by
  induction xs with
  | nil => intro j hj; simp [loopTrace] at hj
  | cons x xs ih =>
    intro j hj
    simp only [loopTrace] at hj
    by_cases h : f x = []
    · simp [h] at hj
      rcases hj with h1 | h2
      · exact h1
      · exact ih j h2
    · simp [h] at hj
      exact hj

theorem loopTraceGuard_log {α : Type} (k : Nat) (g : α → Prop) [DecidablePred g]
    (f : α → List Row) (xs : List α) :
    ∀ j ∈ (loopTraceGuard k g f xs).2, j = k := by
  induction xs with
  | nil => intro j hj; simp [loopTraceGuard] at hj
  | cons x xs ih =>
    intro j hj
    simp only [loopTraceGuard] at hj
    by_cases hg : g x
    · by_cases h : f x = []
      · simp [hg, h] at hj
        rcases hj with h1 | h2
        · exact h1
        · exact ih j h2
      · simp [hg, h] at hj
        exact hj
    · simp [hg] at hj
      exact ih j hj

theorem strat0Trace_fst (store : List Row) (l : Listing) :
    (strat0Trace store l).1 = strat0 store l := by
  simp only [strat0Trace, strat0]
  split_ifs <;> simp_all

theorem strat0Trace_log (store : List Row) (l : Listing) :
    ∀ j ∈ (strat0Trace store l).2, j = 0 := by
  intro j hj
  simp only [strat0Trace] at hj
  split_ifs at hj <;> simp_all

theorem strat2Trace_fst (store : List Row) (l : Listing) :
    (strat2Trace store l).1 = strat2 store l := by
  simp only [strat2Trace, strat2]
  by_cases hu : l.url_location.getD "" = ""
  · simp [hu]
  · simp only [hu, if_false, if_neg, ne_eq, not_true_eq_false, not_false_eq_true, if_true]
    exact loopTraceGuard_fst _ _ _ _

theorem strat2Trace_log (store : List Row) (l : Listing) :
    ∀ j ∈ (strat2Trace store l).2, j = 2 := by
  intro j hj
  simp only [strat2Trace] at hj
  split_ifs at hj
  · exact loopTraceGuard_log _ _ _ _ j hj
  · simp at hj

theorem strat5Trace_fst (store : List Row) (phs : List String) :
    (strat5Trace store phs).1 = strat5 store phs := by
  induction phs with
  | nil => rfl
  | cons ph rest ih =>
    have hp := loopTrace_fst 5 (fun w => q1 store (fun r => r.project_name_en) w 100)
      (strat5Words ph)
    simp only [strat5Trace]
    by_cases h : firstNonempty (fun w => q1 store (fun r => r.project_name_en) w 100)
        (strat5Words ph) = []
    · rw [show strat5 store (ph :: rest) = strat5 store rest from by
        simp [strat5, firstNonempty, h]]
      simp [hp, h, ih]
    · rw [show strat5 store (ph :: rest) =
          firstNonempty (fun w => q1 store (fun r => r.project_name_en) w 100)
            (strat5Words ph) from by
        simp [strat5, firstNonempty, h]]
      simp [hp, h]

theorem strat5Trace_log (store : List Row) (phs : List String) :
    ∀ j ∈ (strat5Trace store phs).2, j = 5 := by
  induction phs with
  | nil => intro j hj; simp [strat5Trace] at hj
  | cons ph rest ih =>
    intro j hj
    simp only [strat5Trace] at hj
    by_cases h :
        (loopTrace 5 (fun w => q1 store (fun r => r.project_name_en) w 100)
          (strat5Words ph)).1 = []
    · simp only [h, ne_eq, not_true_eq_false, if_false, List.mem_append] at hj
      rcases hj with h1 | h2
      · exact loopTrace_log _ _ _ j h1
      · exact ih j h2
    · simp only [ne_eq, h, not_false_eq_true, if_true] at hj
      exact loopTrace_log _ _ _ j hj

theorem searchRows_eq (store : List Row) (l : Listing) (phrases : List String) :
    searchRows store l phrases =
      if strat0 store l ++ strat1 store phrases ≠ [] then
        strat0 store l ++ strat1 store phrases
      else if strat2 store l ≠ [] then strat2 store l
      else if strat3 store phrases ≠ [] then strat3 store phrases
      else if strat4 store phrases ≠ [] then strat4 store phrases
      else strat5 store phrases := by
  have e0 := strat0Trace_fst store l
  have e1 : (loopTrace 1 (fun ph => q1 store (fun r => r.project_name_en) ph 100) phrases).1
      = strat1 store phrases := loopTrace_fst _ _ _
  have e2 := strat2Trace_fst store l
  have e3 : (loopTraceGuard 3 (fun ph : String => ph.length > 3)
      (fun ph => q1 store (fun r => r.master_project_en) ph 200) phrases).1
      = strat3 store phrases := loopTraceGuard_fst _ _ _ _
  have e4 : (loopTraceGuard 4 (fun ph : String => ph.length > 3)
      (fun ph => q1 store (fun r => r.area_name_en) ph 200) phrases).1
      = strat4 store phrases := loopTraceGuard_fst _ _ _ _
  have e5 := strat5Trace_fst store phrases
  simp only [searchRows, searchTrace, apply_ite (Prod.fst (α := List Row) (β := List Nat)),
    e0, e1, e2, e3, e4, e5]
  by_cases h1 : strat0 store l ++ strat1 store phrases = []
  · simp only [h1, if_pos rfl, List.nil_append, ne_eq, not_true_eq_false, if_false]
    by_cases h2 : strat2 store l = []
    · simp only [h2, if_pos rfl, List.append_nil, List.nil_append, not_true_eq_false, if_false]
      by_cases h3 : strat3 store phrases = []
      · simp only [h3, if_pos rfl, List.append_nil, List.nil_append, not_true_eq_false,
          if_false]
        by_cases h4 : strat4 store phrases = []
        · simp [h4]
        · simp [h4]
      · simp [h3]
    · simp [h2]
  · simp [h1]

theorem searchLog_sound (store : List Row) (l : Listing) (phrases : List String) :
    ∀ j ∈ searchLog store l phrases,
      (2 ≤ j → strat0 store l = [] ∧ strat1 store phrases = []) ∧
      (3 ≤ j → strat2 store l = []) ∧
      (4 ≤ j → strat3 store phrases = []) ∧
      (5 ≤ j → strat4 store phrases = []) := by
  intro j hj
  have e0 := strat0Trace_fst store l
  have e1 : (loopTrace 1 (fun ph => q1 store (fun r => r.project_name_en) ph 100) phrases).1
      = strat1 store phrases := loopTrace_fst _ _ _
  have e2 := strat2Trace_fst store l
  have e3 : (loopTraceGuard 3 (fun ph : String => ph.length > 3)
      (fun ph => q1 store (fun r => r.master_project_en) ph 200) phrases).1
      = strat3 store phrases := loopTraceGuard_fst _ _ _ _
  have e4 : (loopTraceGuard 4 (fun ph : String => ph.length > 3)
      (fun ph => q1 store (fun r => r.area_name_en) ph 200) phrases).1
      = strat4 store phrases := loopTraceGuard_fst _ _ _ _
  simp only [searchLog, searchTrace, apply_ite (Prod.fst (α := List Row) (β := List Nat)),
    apply_ite (Prod.snd (α := List Row) (β := List Nat)), e0, e1, e2, e3, e4,
    List.mem_append] at hj
  by_cases h1 : strat0 store l ++ strat1 store phrases = []
  · rw [List.append_eq_nil] at h1
    by_cases h2 : strat2 store l = []
    · by_cases h3 : strat3 store phrases = []
      · by_cases h4 : strat4 store phrases = []
        · simp only [h1.1, h1.2, h2, h3, h4, List.append_nil, List.nil_append, if_pos rfl] at hj
          rcases hj with ((((hA | hB) | hC) | hD) | hE) | hF
          · have hje := strat0Trace_log store l j hA
            subst hje
            exact ⟨fun hh => by exfalso; omega, fun hh => by exfalso; omega,
              fun hh => by exfalso; omega, fun hh => by exfalso; omega⟩
          · have hje := loopTrace_log 1 _ phrases j hB
            subst hje
            exact ⟨fun hh => by exfalso; omega, fun hh => by exfalso; omega,
              fun hh => by exfalso; omega, fun hh => by exfalso; omega⟩
          · have hje := strat2Trace_log store l j hC
            subst hje
            exact ⟨fun _ => h1, fun hh => by exfalso; omega,
              fun hh => by exfalso; omega, fun hh => by exfalso; omega⟩
          · have hje := loopTraceGuard_log 3 _ _ phrases j hD
            subst hje
            exact ⟨fun _ => h1, fun _ => h2, fun hh => by exfalso; omega,
              fun hh => by exfalso; omega⟩
          · have hje := loopTraceGuard_log 4 _ _ phrases j hE
            subst hje
            exact ⟨fun _ => h1, fun _ => h2, fun _ => h3, fun hh => by exfalso; omega⟩
          · have hje := strat5Trace_log store phrases j hF
            subst hje
            exact ⟨fun _ => h1, fun _ => h2, fun _ => h3, fun _ => h4⟩
        · simp only [h1.1, h1.2, h2, h3, List.append_nil, List.nil_append, if_pos rfl,
            if_neg h4] at hj
          rcases hj with ((((hA | hB) | hC) | hD) | hE) | hF
          · have hje := strat0Trace_log store l j hA
            subst hje
            exact ⟨fun hh => by exfalso; omega, fun hh => by exfalso; omega,
              fun hh => by exfalso; omega, fun hh => by exfalso; omega⟩
          · have hje := loopTrace_log 1 _ phrases j hB
            subst hje
            exact ⟨fun hh => by exfalso; omega, fun hh => by exfalso; omega,
              fun hh => by exfalso; omega, fun hh => by exfalso; omega⟩
          · have hje := strat2Trace_log store l j hC
            subst hje
            exact ⟨fun _ => h1, fun hh => by exfalso; omega,
              fun hh => by exfalso; omega, fun hh => by exfalso; omega⟩
          · have hje := loopTraceGuard_log 3 _ _ phrases j hD
            subst hje
            exact ⟨fun _ => h1, fun _ => h2, fun hh => by exfalso; omega,
              fun hh => by exfalso; omega⟩
          · have hje := loopTraceGuard_log 4 _ _ phrases j hE
            subst hje
            exact ⟨fun _ => h1, fun _ => h2, fun _ => h3, fun hh => by exfalso; omega⟩
          · simp [h4] at hF
      · simp only [h1.1, h1.2, h2, List.append_nil, List.nil_append, if_pos rfl,
          if_neg h3] at hj
        rcases hj with ((((hA | hB) | hC) | hD) | hE) | hF
        · have hje := strat0Trace_log store l j hA
          subst hje
          exact ⟨fun hh => by exfalso; omega, fun hh => by exfalso; omega,
            fun hh => by exfalso; omega, fun hh => by exfalso; omega⟩
        · have hje := loopTrace_log 1 _ phrases j hB
          subst hje
          exact ⟨fun hh => by exfalso; omega, fun hh => by exfalso; omega,
            fun hh => by exfalso; omega, fun hh => by exfalso; omega⟩
        · have hje := strat2Trace_log store l j hC
          subst hje
          exact ⟨fun _ => h1, fun hh => by exfalso; omega,
            fun hh => by exfalso; omega, fun hh => by exfalso; omega⟩
        · have hje := loopTraceGuard_log 3 _ _ phrases j hD
          subst hje
          exact ⟨fun _ => h1, fun _ => h2, fun hh => by exfalso; omega,
            fun hh => by exfalso; omega⟩
        · simp [h3] at hE
        · simp [h3] at hF
    · simp only [h1.1, h1.2, List.append_nil, List.nil_append, if_pos rfl,
        if_neg h2] at hj
      rcases hj with ((((hA | hB) | hC) | hD) | hE) | hF
      · have hje := strat0Trace_log store l j hA
        subst hje
        exact ⟨fun hh => by exfalso; omega, fun hh => by exfalso; omega,
          fun hh => by exfalso; omega, fun hh => by exfalso; omega⟩
      · have hje := loopTrace_log 1 _ phrases j hB
        subst hje
        exact ⟨fun hh => by exfalso; omega, fun hh => by exfalso; omega,
          fun hh => by exfalso; omega, fun hh => by exfalso; omega⟩
      · have hje := strat2Trace_log store l j hC
        subst hje
        exact ⟨fun _ => h1, fun hh => by exfalso; omega,
          fun hh => by exfalso; omega, fun hh => by exfalso; omega⟩
      · simp [h2] at hD
      · simp [h2] at hE
      · simp [h2] at hF
  · have h1' : ¬ (strat0 store l ++ strat1 store phrases = [] ∧ True) := by simp [h1]
    simp only [if_neg h1] at hj
    rcases hj with ((((hA | hB) | hC) | hD) | hE) | hF
    · have hje := strat0Trace_log store l j hA
      subst hje
      exact ⟨fun hh => by exfalso; omega, fun hh => by exfalso; omega,
        fun hh => by exfalso; omega, fun hh => by exfalso; omega⟩
    · have hje := loopTrace_log 1 _ phrases j hB
      subst hje
      exact ⟨fun hh => by exfalso; omega, fun hh => by exfalso; omega,
        fun hh => by exfalso; omega, fun hh => by exfalso; omega⟩
    · simp at hC
    · simp [h1] at hD
    · simp [h1] at hE
    · simp [h1] at hF

/-! ## Deduplication and sorting lemmas -/

theorem dedupScored_sublist (seen : List (Option String × Option String × Option String)) :
    ∀ xs : List Scored, List.Sublist (dedupScored seen xs) xs := by
  intro xs
  induction xs generalizing seen with
  | nil => simp [dedupScored]
  | cons d rest ih =>
    simp only [dedupScored]
    by_cases h : rowKey d.row ∈ seen
    · rw [if_pos h]
      exact (ih seen).trans (List.sublist_cons_self d rest)
    · rw [if_neg h]
      exact (ih (rowKey d.row :: seen)).cons₂ d

theorem dedupScored_key_notin (seen : List (Option String × Option String × Option String))
    (xs : List Scored) :
    ∀ d ∈ dedupScored seen xs, rowKey d.row ∉ seen := by
  induction xs generalizing seen with
  | nil => simp [dedupScored]
  | cons x rest ih =>
    intro d hd
    simp only [dedupScored] at hd
    by_cases h : rowKey x.row ∈ seen
    · rw [if_pos h] at hd
      exact ih seen d hd
    · rw [if_neg h] at hd
      rcases List.mem_cons.mp hd with he | he
      · rw [he]; exact h
      · have := ih (rowKey x.row :: seen) d he
        exact fun hs => this (List.mem_cons_of_mem _ hs)

theorem dedupScored_pairwise (seen : List (Option String × Option String × Option String))
    (xs : List Scored) :
    (dedupScored seen xs).Pairwise (fun a b => rowKey a.row ≠ rowKey b.row) := by
  induction xs generalizing seen with
  | nil => simp [dedupScored]
  | cons x rest ih =>
    simp only [dedupScored]
    by_cases h : rowKey x.row ∈ seen
    · rw [if_pos h]; exact ih seen
    · rw [if_neg h]
      refine List.pairwise_cons.mpr ⟨?_, ih _⟩
      intro b hb
      have hb' := dedupScored_key_notin (rowKey x.row :: seen) rest b hb
      intro he
      exact hb' (he ▸ List.mem_cons_self _ _)

theorem dedupScored_max (seen : List (Option String × Option String × Option String))
    (xs : List Scored) (hs : xs.Sorted scoreGe) :
    ∀ d ∈ dedupScored seen xs, ∀ e ∈ xs, rowKey e.row = rowKey d.row →
      e.match_score ≤ d.match_score := by
  induction xs generalizing seen with
  | nil => simp [dedupScored]
  | cons x rest ih =>
    intro d hd e he hk
    have hs' : rest.Sorted scoreGe := (List.sorted_cons.mp hs).2
    have hx : ∀ b ∈ rest, scoreGe x b := (List.sorted_cons.mp hs).1
    simp only [dedupScored] at hd
    by_cases h : rowKey x.row ∈ seen
    · rw [if_pos h] at hd
      rcases List.mem_cons.mp he with he1 | he1
      · exfalso
        have hnot := dedupScored_key_notin seen rest d hd
        rw [← hk, he1] at hnot
        exact hnot h
      · exact ih seen hs' d hd e he1 hk
    · rw [if_neg h] at hd
      rcases List.mem_cons.mp hd with hd1 | hd1
      · rcases List.mem_cons.mp he with he1 | he1
        · rw [he1, hd1]
        · rw [hd1]
          exact hx e he1
      · rcases List.mem_cons.mp he with he1 | he1
        · exfalso
          have hnot := dedupScored_key_notin (rowKey x.row :: seen) rest d hd1
          rw [← hk, he1] at hnot
          exact hnot (List.mem_cons_self _ _)
        · exact ih (rowKey x.row :: seen) hs' d hd1 e he1 hk

theorem dedupScored_find (seen : List (Option String × Option String × Option String))
    (xs : List Scored) :
    ∀ d ∈ dedupScored seen xs,
      xs.find? (fun e => decide (rowKey e.row = rowKey d.row)) = some d := by
  induction xs generalizing seen with
  | nil => simp [dedupScored]
  | cons x rest ih =>
    intro d hd
    simp only [dedupScored] at hd
    by_cases h : rowKey x.row ∈ seen
    · rw [if_pos h] at hd
      have hne : ¬ rowKey x.row = rowKey d.row := by
        intro he
        exact dedupScored_key_notin seen rest d hd (he ▸ h)
      rw [List.find?_cons_of_neg _ (by simpa using hne)]
      exact ih seen d hd
    · rw [if_neg h] at hd
      rcases List.mem_cons.mp hd with hd1 | hd1
      · rw [hd1, List.find?_cons_of_pos _ (by simp)]
      · have hne : ¬ rowKey x.row = rowKey d.row := by
          intro he
          exact dedupScored_key_notin (rowKey x.row :: seen) rest d hd1
            (he ▸ List.mem_cons_self _ _)
        rw [List.find?_cons_of_neg _ (by simpa using hne)]
        exact ih _ d hd1

theorem dedupScored_covers (seen : List (Option String × Option String × Option String))
    (xs : List Scored) :
    ∀ e ∈ xs, rowKey e.row ∉ seen →
      ∃ d ∈ dedupScored seen xs, rowKey d.row = rowKey e.row := by
  induction xs generalizing seen with
  | nil => simp
  | cons x rest ih =>
    intro e he hns
    simp only [dedupScored]
    by_cases h : rowKey x.row ∈ seen
    · rw [if_pos h]
      rcases List.mem_cons.mp he with he1 | he1
      · exfalso
        rw [he1] at hns
        exact hns h
      · exact ih seen e he1 hns
    · rw [if_neg h]
      rcases List.mem_cons.mp he with he1 | he1
      · exact ⟨x, List.mem_cons_self _ _, by rw [he1]⟩
      · by_cases hk : rowKey e.row = rowKey x.row
        · exact ⟨x, List.mem_cons_self _ _, hk.symm⟩
        · obtain ⟨d, hd, hdk⟩ := ih (rowKey x.row :: seen) e he1 (by simp [hk, hns])
          exact ⟨d, List.mem_cons_of_mem _ hd, hdk⟩

/-! ## Ordering lemmas for the phrase dedup pass -/

/-- The normalised (trimmed, lower-cased, nonempty) values of a phrase list. -/
def normPhrases (xs : List String) : List String :=
  (xs.map fun s => pyLower (pyStrip s)).filter fun t => t ≠ ""

theorem dedupGo_eq_edGo : ∀ (seen xs : List String), dedupGo seen xs = edGo seen (normPhrases xs)
  | _, [] => rfl
  | seen, p :: rest => by
    simp only [dedupGo, normPhrases, List.map_cons]
    by_cases hp : pyLower (pyStrip p) = ""
    · rw [List.filter_cons_of_neg (by simpa using hp)]
      simp only [hp, ne_eq, not_true_eq_false, false_and, if_false]
      exact dedupGo_eq_edGo seen rest
    · rw [List.filter_cons_of_pos (by simpa using hp)]
      simp only [edGo, hp, ne_eq, not_false_eq_true, true_and]
      by_cases hs : pyLower (pyStrip p) ∈ seen
      · simp only [hs, not_true_eq_false, if_false, if_pos hs]
        exact dedupGo_eq_edGo seen rest
      · simp only [hs, not_false_eq_true, if_true, if_neg hs]
        rw [dedupGo_eq_edGo (pyLower (pyStrip p) :: seen) rest]
        simp [normPhrases]

theorem edGo_mem (seen m : List String) (x : String) (hx : x ∈ m) (hns : x ∉ seen) :
    x ∈ edGo seen m := by
  induction m generalizing seen with
  | nil => simp at hx
  | cons a rest ih =>
    simp only [edGo]
    by_cases h : a ∈ seen
    · rw [if_pos h]
      rcases List.mem_cons.mp hx with h1 | h1
      · exact absurd (h1 ▸ h) hns
      · exact ih seen h1 hns
    · rw [if_neg h]
      rcases List.mem_cons.mp hx with h1 | h1
      · rw [h1]; exact List.mem_cons_self _ _
      · by_cases hxa : x = a
        · rw [hxa]; exact List.mem_cons_self _ _
        · exact List.mem_cons_of_mem _ (ih (a :: seen) h1 (by simp [hxa, hns]))

theorem edGo_pair (x y : String) :
    ∀ (seen m₁ m₂ : List String), x ∈ m₁ → x ∉ seen → y ∉ m₁ → y ∉ seen → y ∈ m₂ →
      List.Sublist [x, y] (edGo seen (m₁ ++ m₂)) := by
  intro seen m₁
  induction m₁ generalizing seen with
  | nil => intro m₂ hx; simp at hx
  | cons a m₁ ih =>
    intro m₂ hx hxs hy hys hym
    simp only [List.cons_append, edGo]
    by_cases h : a ∈ seen
    · rw [if_pos h]
      rcases List.mem_cons.mp hx with h1 | h1
      · exact absurd (h1 ▸ h) hxs
      · exact ih seen m₂ h1 hxs (fun hc => hy (List.mem_cons_of_mem _ hc)) hys hym
    · rw [if_neg h]
      by_cases hxa : x = a
      · have hyne : y ∉ a :: seen := by
          simp only [List.mem_cons]
          push_neg
          exact ⟨fun hc => hy (hc ▸ List.mem_cons_self _ _), hys⟩
        have hymem : y ∈ edGo (a :: seen) (m₁ ++ m₂) :=
          edGo_mem _ _ y (List.mem_append_right _ hym) hyne
        rw [hxa]
        exact (List.singleton_sublist.mpr hymem).cons₂ a
      · rcases List.mem_cons.mp hx with h1 | h1
        · exact absurd h1 hxa
        · have hys' : y ∉ a :: seen := by
            simp only [List.mem_cons]
            push_neg
            exact ⟨fun hc => hy (hc ▸ List.mem_cons_self _ _), hys⟩
          have hxs' : x ∉ a :: seen := by
            simp only [List.mem_cons]
            push_neg
            exact ⟨hxa, hxs⟩
          exact (ih (a :: seen) m₂ h1 hxs'
            (fun hc => hy (List.mem_cons_of_mem _ hc)) hys' hym).cons a

theorem dedupGo_mem_ne (seen xs : List String) : ∀ p ∈ dedupGo seen xs, p ≠ "" := by
  induction xs generalizing seen with
  | nil => simp [dedupGo]
  | cons q rest ih =>
    intro p hp
    simp only [dedupGo] at hp
    by_cases h : pyLower (pyStrip q) ≠ "" ∧ pyLower (pyStrip q) ∉ seen
    · rw [if_pos h] at hp
      rcases List.mem_cons.mp hp with h1 | h1
      · rw [h1]; exact h.1
      · exact ih _ p h1
    · rw [if_neg h] at hp
      exact ih seen p hp

/-! ## Claim theorems -/

/-- C7: if the phrase extractor yields no phrases, or every search strategy
returns an empty result set, `find_units` returns the empty list (the model is
total, so no exception or error value is possible). -/
theorem c7_no_candidates_empty (store : List Row) (l : Listing) :
    (extract_search_phrases l = [] → find_units store l = []) ∧
    (strat0 store l = [] → strat1 store (extract_search_phrases l) = [] →
      strat2 store l = [] → strat3 store (extract_search_phrases l) = [] →
      strat4 store (extract_search_phrases l) = [] →
      strat5 store (extract_search_phrases l) = [] →
      find_units store l = []) := by
  constructor
  · intro h
    simp [find_units, h]
  · intro h0 h1 h2 h3 h4 h5
    by_cases hp : extract_search_phrases l = []
    · simp [find_units, hp]
    · have hr := searchRows_eq store l (extract_search_phrases l)
      rw [h0, h1, h2, h3, h4, h5] at hr
      simp only [List.append_nil, ne_eq, not_true_eq_false, if_false] at hr
      simp [find_units, hp, hr, rank_results, sortedOf, scoredOf, dedupScored]

/-- Witness for C7 at the empty listing and empty store. -/
theorem c7_no_candidates_empty_witness :
    extract_search_phrases {} = [] ∧ find_units [] {} = [] :=
  ⟨rfl, (c7_no_candidates_empty [] {}).1 rfl⟩

/-- C8: `find_units` depends only on the listing attributes the pipeline
reads; two invocations against the same store with identical attributes return
identical ordered result lists. -/
theorem c8_determinism (store : List Row) (l₁ l₂ : Listing)
    (h1 : l₁.property_type = l₂.property_type) (h2 : l₁.bedrooms = l₂.bedrooms)
    (h3 : l₁.area_sqft = l₂.area_sqft) (h4 : l₁.title = l₂.title)
    (h5 : l₁.og_title = l₂.og_title) (h6 : l₁.name = l₂.name)
    (h7 : l₁.url_location = l₂.url_location) (h8 : l₁.sub_community = l₂.sub_community)
    (h9 : l₁.community = l₂.community) (h10 : l₁.master_community = l₂.master_community)
    (h11 : l₁.dld_zone_name = l₂.dld_zone_name) (h12 : l₁.breadcrumbs = l₂.breadcrumbs) :
    find_units store l₁ = find_units store l₂ := by
  cases l₁
  cases l₂
  simp only at h1 h2 h3 h4 h5 h6 h7 h8 h9 h10 h11 h12
  subst h1 h2 h3 h4 h5 h6 h7 h8 h9 h10 h11 h12
  rfl

/-- Witness for C8: two listings differing only in ignored fields. -/
theorem c8_determinism_witness :
    find_units [] { source_url := "a" } = find_units [] { source_url := "b" } :=
  c8_determinism [] _ _ rfl rfl rfl rfl rfl rfl rfl rfl rfl rfl rfl rfl

/-- C9: the +10 bedroom bonus is awarded exactly when the rooms text parses
and its float value truncated toward zero equals the listing's bedrooms
integer; a failed parse contributes 0. -/
theorem c9_bedroom_bonus (l : Listing) (r : Row) :
    (∀ (b : Int) (s : String) (q : ℚ),
      l.bedrooms = some b → r.rooms = some s → pyFloat s = some q →
      bedroomScore l r = if ratTrunc q = b then 10 else 0) ∧
    (∀ s : String, r.rooms = some s → pyFloat s = none → bedroomScore l r = 0) := by
  constructor
  · intro b s q hb hr hq
    have hs : s ≠ "" := by
      intro h
      rw [h] at hq
      simp [pyFloat, pyStrip, parseUnsigned] at hq
    simp only [bedroomScore, hb, hr, hs, ne_eq, not_false_eq_true, if_true, hq]
    by_cases he : ratTrunc q = b
    · simp [he]
    · have he' : ¬ b = ratTrunc q := fun h => he h.symm
      simp [he, he']
  · intro s hr hq
    cases hb : l.bedrooms with
    | none => simp [bedroomScore, hb, hr]
    | some b =>
      by_cases hs : s = ""
      · simp [bedroomScore, hb, hr, hs]
      · simp [bedroomScore, hb, hr, hs, hq]

/-- Witness for C9: rooms text `"4.9"` truncates to 4 and earns the bonus for
`bedrooms = 4`. -/
theorem c9_bedroom_bonus_witness :
    pyFloat "4.9" = some (49 / 10) ∧ ratTrunc (49 / 10) = 4 ∧
    bedroomScore { bedrooms := some 4 } { rooms := some "4.9" } = 10 := by
  refine ⟨by with_unfolding_all decide, by with_unfolding_all decide, ?_⟩
  have h := (c9_bedroom_bonus { bedrooms := some 4 } { rooms := some "4.9" }).1
    4 "4.9" (49 / 10) rfl rfl (by with_unfolding_all decide)
  rw [h]
  with_unfolding_all decide

/-- C4 counterexample: a two-character sub-community becomes a two-character
phrase, violating the claimed four-character minimum. -/
theorem c4_counterexample :
    extract_search_phrases { sub_community := some "Ab" } = ["ab"] ∧
    String.length "ab" < 4 := by
  exact ⟨by decide, by decide⟩

/-- C4 (amended): every extracted phrase is nonempty after trimming; there is
no global four-character minimum (address-hierarchy and zone phrases only need
to be nonempty, url-split parts and breadcrumbs need length > 2, title words
need length > 1). -/
theorem c4_phrases_nonempty (l : Listing) : ∀ p ∈ extract_search_phrases l, p ≠ "" :=
  dedupGo_mem_ne [] (rawPhrases l)

/-- Witness for the amended C4. -/
theorem c4_phrases_nonempty_witness : "ab" ≠ "" :=
  c4_phrases_nonempty { sub_community := some "Ab" } "ab" (by decide)

/-- The condition under which the property-type bonus actually fires: the
lowered listing type occurs as a substring of the candidate's lowered type or
subtype (one direction only). -/
def ptypeMatches (l : Listing) (r : Row) : Bool :=
  pyIn (pyLower (l.property_type.getD "")) (pyLower (r.property_type_en.getD "")) ||
  pyIn (pyLower (l.property_type.getD "")) (pyLower (r.property_sub_type_en.getD ""))

theorem ptypeScore_eq (l : Listing) (r : Row) :
    ptypeScore l r =
      if pyLower (l.property_type.getD "") ≠ "" ∧ ptypeMatches l r then 15 else 0 := by
  simp only [ptypeScore, ptypeMatches]
  by_cases h1 : pyLower (l.property_type.getD "") = ""
  · simp [h1]
  · by_cases h2 : (pyIn (pyLower (l.property_type.getD ""))
        (pyLower (r.property_type_en.getD "")) ||
      pyIn (pyLower (l.property_type.getD "")) (pyLower (r.property_sub_type_en.getD ""))) = true
    · simp [h1, h2]
    · have h2' := h2
      simp only [Bool.or_eq_true, not_or, Bool.not_eq_true] at h2'
      by_cases h3 : pyLower (l.property_type.getD "") = "villa"
      · rw [h3] at h2'
        simp [h1, h2, h3, h2'.2]
      · simp [h1, h2, h3]

/-- C5 counterexample: with listing type `"villas"` and registry type `"vil"`
the registry value is contained in the listing value (the claim's reverse
direction holds), yet `rank_results` scores the candidate 0, not 15. -/
theorem c5_counterexample :
    pyIn "vil" "villas" = true ∧
    rank_results [{ property_type_en := some "vil" }] { property_type := some "villas" } [] =
      [{ row := { property_type_en := some "vil" }, match_score := 0 }] :=
  ⟨by decide, by with_unfolding_all decide⟩

/-- C5 (amended): with `property_type` present, `rank_results` adds exactly 15
to the accumulated score iff the lowered listing type is a substring of the
candidate's lowered `property_type_en` or `property_sub_type_en` — one
direction only, not "substring either way". -/
theorem c5_ptype_bonus (l : Listing) (phrases : List String) (r : Row) :
    rawScore l phrases r =
      rawScore { l with property_type := none } phrases r +
        (if pyLower (l.property_type.getD "") ≠ "" ∧ ptypeMatches l r then 15 else 0) := by
  have h0 : ptypeScore { l with property_type := none } r = 0 := by
    simp [ptypeScore, pyLower]
  have hb : bedroomScore { l with property_type := none } r = bedroomScore l r := rfl
  have hsz : sizeScore { l with property_type := none } r = sizeScore l r := rfl
  have hz : ({ l with property_type := none } : Listing).dld_zone_name = l.dld_zone_name := rfl
  simp only [rawScore, h0, hb, hsz, hz, ptypeScore_eq]
  ring

/-- C2: every ranked list has pairwise-distinct business keys; the entry kept
for a key carries the maximal score among all scored candidates with that key
and is the first such entry of the score-sorted list; every candidate's key is
represented; the capped `find_units` output keeps the distinct-key invariant. -/
theorem c2_dedup_invariant :
    (∀ (rows : List Row) (l : Listing) (phrases : List String),
      (rank_results rows l phrases).Pairwise (fun a b => rowKey a.row ≠ rowKey b.row) ∧
      (∀ d ∈ rank_results rows l phrases,
        (∀ e ∈ scoredOf rows l phrases, rowKey e.row = rowKey d.row →
          e.match_score ≤ d.match_score) ∧
        (sortedOf rows l phrases).find? (fun e => decide (rowKey e.row = rowKey d.row)) =
          some d) ∧
      (∀ e ∈ scoredOf rows l phrases, ∃ d ∈ rank_results rows l phrases,
        rowKey d.row = rowKey e.row)) ∧
    (∀ (store : List Row) (l : Listing),
      (find_units store l).Pairwise (fun a b => rowKey a.row ≠ rowKey b.row) ∧
      ∀ d ∈ find_units store l,
        d ∈ rank_results (searchRows store l (extract_search_phrases l)) l
          (extract_search_phrases l)) := by
  constructor
  · intro rows l phrases
    have hsort : (sortedOf rows l phrases).Sorted scoreGe :=
      List.sorted_insertionSort scoreGe _
    refine ⟨dedupScored_pairwise [] _, ?_, ?_⟩
    · intro d hd
      constructor
      · intro e he hk
        have he' : e ∈ sortedOf rows l phrases :=
          (List.perm_insertionSort scoreGe _).mem_iff.mpr he
        exact dedupScored_max [] _ hsort d hd e he' hk
      · exact dedupScored_find [] _ d hd
    · intro e he
      have he' : e ∈ sortedOf rows l phrases :=
        (List.perm_insertionSort scoreGe _).mem_iff.mpr he
      exact dedupScored_covers [] _ e he' (by simp)
  · intro store l
    by_cases hp : extract_search_phrases l = []
    · simp [find_units, hp]
    · have hfu : find_units store l =
          (rank_results (searchRows store l (extract_search_phrases l)) l
            (extract_search_phrases l)).take 20 := by
        simp [find_units, hp]
      rw [hfu]
      exact ⟨List.Pairwise.sublist (List.take_sublist _ _) (dedupScored_pairwise [] _),
        fun d hd => List.take_subset _ _ hd⟩

/-- Witness for C2 at a concrete lookup. -/
theorem c2_dedup_invariant_witness :
    (find_units [] ({} : Listing)).Pairwise (fun a b => rowKey a.row ≠ rowKey b.row) :=
  (c2_dedup_invariant.2 [] {}).1

/-- Rows used by concrete witnesses: identical but for their unit number, so
they produce equal scores. -/
def wRowA : Row := { unit_number := some "1" }

def wRowB : Row := { unit_number := some "2" }

/-- C3: the ranked list (and the capped `find_units` list) is sorted by
`match_score` descending, and the sort is stable: any score-sorted sublist of
the retrieval-ordered scored list survives as a sublist of the sorted list, so
candidates with equal scores keep retrieval order. -/
theorem c3_score_monotonicity :
    (∀ (rows : List Row) (l : Listing) (phrases : List String),
      (rank_results rows l phrases).Sorted scoreGe ∧
      (∀ sub : List Scored, sub.Pairwise scoreGe →
        List.Sublist sub (scoredOf rows l phrases) →
        List.Sublist sub (sortedOf rows l phrases))) ∧
    (∀ (store : List Row) (l : Listing), (find_units store l).Sorted scoreGe) := by
  constructor
  · intro rows l phrases
    constructor
    · exact List.Pairwise.sublist (dedupScored_sublist [] _)
        (List.sorted_insertionSort scoreGe _)
    · intro sub hp hsub
      exact List.sublist_insertionSort hp hsub
  · intro store l
    by_cases hp : extract_search_phrases l = []
    · simp [find_units, hp]
    · have hfu : find_units store l =
          (rank_results (searchRows store l (extract_search_phrases l)) l
            (extract_search_phrases l)).take 20 := by
        simp [find_units, hp]
      rw [hfu]
      exact List.Pairwise.sublist (List.take_sublist _ _)
        (List.Pairwise.sublist (dedupScored_sublist [] _)
          (List.sorted_insertionSort scoreGe _))

/-- Witness for C3's stability clause: two equal-scored rows keep retrieval
order through the sort. -/
theorem c3_score_monotonicity_witness :
    List.Sublist [⟨wRowA, 0⟩, ⟨wRowB, 0⟩] (sortedOf [wRowA, wRowB] {} []) := by
  have hsc : scoredOf [wRowA, wRowB] {} [] = [⟨wRowA, 0⟩, ⟨wRowB, 0⟩] := by
    with_unfolding_all decide
  have h := (c3_score_monotonicity.1 [wRowA, wRowB] {} []).2 [⟨wRowA, 0⟩, ⟨wRowB, 0⟩]
    (by with_unfolding_all decide) (by rw [hsc])
  exact h

/-- C10: every ranked entry's `match_score` is the raw accumulated score
rounded to one decimal (an integer multiple of 1/10), the sort permutes the
already-rounded list, and two candidates whose scores round to the same value
keep their retrieval order through the sort. -/
theorem c10_round_before_sort (rows : List Row) (l : Listing) (phrases : List String) :
    (∀ d ∈ rank_results rows l phrases, ∃ r ∈ rows,
      d = ⟨r, pyRound1 (rawScore l phrases r)⟩ ∧
      ∃ k : ℤ, d.match_score = (k : ℚ) / 10) ∧
    (sortedOf rows l phrases).Perm (scoredOf rows l phrases) ∧
    (∀ a b : Scored, List.Sublist [a, b] (scoredOf rows l phrases) →
      a.match_score = b.match_score → List.Sublist [a, b] (sortedOf rows l phrases)) := by
  refine ⟨?_, List.perm_insertionSort scoreGe _, ?_⟩
  · intro d hd
    have hd1 : d ∈ sortedOf rows l phrases := (dedupScored_sublist [] _).subset hd
    have hd2 : d ∈ scoredOf rows l phrases :=
      (List.perm_insertionSort scoreGe _).mem_iff.mp hd1
    obtain ⟨r, hr, he⟩ := List.mem_map.mp hd2
    refine ⟨r, hr, he.symm, ⟨roundHalfEven (10 * rawScore l phrases r), ?_⟩⟩
    rw [← he]
    rfl
  · intro a b hsub heq
    refine List.sublist_insertionSort ?_ hsub
    exact List.pairwise_pair.mpr (le_of_eq heq.symm)

/-- Witness for C10's stability clause. -/
theorem c10_round_before_sort_witness :
    List.Sublist [⟨wRowA, 0⟩, ⟨wRowB, 0⟩]
      (sortedOf [wRowA, wRowB] { bedrooms := some 1 } []) := by
  have hsc : scoredOf [wRowA, wRowB] { bedrooms := some 1 } [] =
      [⟨wRowA, 0⟩, ⟨wRowB, 0⟩] := by
    with_unfolding_all decide
  exact (c10_round_before_sort [wRowA, wRowB] { bedrooms := some 1 } []).2.2
    ⟨wRowA, 0⟩ ⟨wRowB, 0⟩ (by rw [hsc]) rfl

/-- C1 (amended): strategies 2-5 short-circuit — a strategy with index ≥ 2 is
queried only when strategies 0 and 1 both returned nothing, index ≥ 3 only
when strategy 2 also returned nothing, and so on — and the candidates passed
to ranking follow the fallback chain except that strategy 1 always runs:
when strategy 0 yields rows the candidate set is strategy 0's rows followed by
strategy 1's rows, not strategy 0's rows alone. -/
theorem c1_fallback_chain (store : List Row) (l : Listing) :
    (searchRows store l (extract_search_phrases l) =
      if strat0 store l ++ strat1 store (extract_search_phrases l) ≠ [] then
        strat0 store l ++ strat1 store (extract_search_phrases l)
      else if strat2 store l ≠ [] then strat2 store l
      else if strat3 store (extract_search_phrases l) ≠ [] then
        strat3 store (extract_search_phrases l)
      else if strat4 store (extract_search_phrases l) ≠ [] then
        strat4 store (extract_search_phrases l)
      else strat5 store (extract_search_phrases l)) ∧
    (∀ j ∈ searchLog store l (extract_search_phrases l),
      (2 ≤ j → strat0 store l = [] ∧ strat1 store (extract_search_phrases l) = []) ∧
      (3 ≤ j → strat2 store l = []) ∧
      (4 ≤ j → strat3 store (extract_search_phrases l) = []) ∧
      (5 ≤ j → strat4 store (extract_search_phrases l) = [])) ∧
    (extract_search_phrases l ≠ [] →
      find_units store l =
        (rank_results (searchRows store l (extract_search_phrases l)) l
          (extract_search_phrases l)).take 20) :=
  ⟨searchRows_eq store l _, searchLog_sound store l _, fun h => by simp [find_units, h]⟩

/-- Store and listing for the C1 counterexample: the single row matches both
the zone-anchored query and the direct project query. -/
def c1Row : Row :=
  { project_name_en := some "ccc tower", area_name_en := some "zzz area",
    unit_number := some "u1", land_number := some "l1" }

/-- Listing for the C1 counterexample. -/
def c1List : Listing := { dld_zone_name := some "zzz", community := some "ccc tower" }

/-- C1 counterexample: strategy 0 yields a row, yet strategy 1 still executes
a query (index 1 appears in the log) and the candidates passed to ranking are
strategy 0's row followed by strategy 1's copy — not strategy 0's rows alone. -/
theorem c1_counterexample :
    strat0 [c1Row] c1List = [c1Row] ∧
    1 ∈ searchLog [c1Row] c1List (extract_search_phrases c1List) ∧
    searchRows [c1Row] c1List (extract_search_phrases c1List) = [c1Row, c1Row] ∧
    searchRows [c1Row] c1List (extract_search_phrases c1List) ≠ strat0 [c1Row] c1List :=
  ⟨by decide, by decide, by decide, by decide⟩

/-- Witness for the amended C1 at the counterexample store. -/
theorem c1_fallback_chain_witness :
    find_units [c1Row] c1List =
      (rank_results (searchRows [c1Row] c1List (extract_search_phrases c1List)) c1List
        (extract_search_phrases c1List)).take 20 :=
  (c1_fallback_chain [c1Row] c1List).2.2 (by decide)

theorem normPhrases_append (a b : List String) :
    normPhrases (a ++ b) = normPhrases a ++ normPhrases b := by
  simp [normPhrases]

/-- Listing for the C6 counterexample. -/
def c6List : Listing :=
  { title := some "Marina Heights Tower", url_location := some "palm jumeirah" }

/-- C6 counterexample: the cleaned-title phrase is emitted before the
url_location phrases, so the url-derived phrase does not precede the title
phrase in the output. -/
theorem c6_counterexample :
    titlePhrases c6List = ["Marina Heights Tower"] ∧
    urlLocPhrases c6List = ["palm jumeirah", "jumeirah", "palm"] ∧
    extract_search_phrases c6List =
      ["marina heights tower", "palm jumeirah", "jumeirah", "palm"] ∧
    ¬ List.Sublist ["palm jumeirah", "marina heights tower"]
      (extract_search_phrases c6List) :=
  ⟨by decide, by decide, by decide, by decide⟩

/-- C6 (amended): the construction order is address hierarchy, zone, title,
url_location, breadcrumbs — so when the title yields a phrase and a
url_location phrase is not already contributed by an earlier source, the
title phrase precedes the url_location phrase in the output. -/
theorem c6_title_before_url (l : Listing) (t u : String)
    (ht : titlePhrases l = [t]) (hu : u ∈ urlLocPhrases l)
    (htn : pyLower (pyStrip t) ≠ "") (hun : pyLower (pyStrip u) ≠ "")
    (hne : pyLower (pyStrip u) ∉
      (hierPhrases l ++ zonePhrases l ++ titlePhrases l).map fun s => pyLower (pyStrip s)) :
    List.Sublist [pyLower (pyStrip t), pyLower (pyStrip u)] (extract_search_phrases l) := by
  have hraw : rawPhrases l =
      (hierPhrases l ++ zonePhrases l ++ titlePhrases l) ++
        (urlLocPhrases l ++ crumbPhrases l) := by
    simp [rawPhrases, List.append_assoc]
  rw [extract_search_phrases, hraw, dedupGo_eq_edGo, normPhrases_append]
  refine edGo_pair _ _ [] _ _ ?_ (by simp) ?_ (by simp) ?_
  · simp only [normPhrases, List.mem_filter, List.mem_map]
    exact ⟨⟨t, by simp [ht], rfl⟩, by simpa using htn⟩
  · intro hy
    exact hne (List.mem_filter.mp hy).1
  · rw [normPhrases_append]
    refine List.mem_append_left _ ?_
    simp only [normPhrases, List.mem_filter, List.mem_map]
    exact ⟨⟨u, hu, rfl⟩, by simpa using hun⟩

/-- Witness for the amended C6. -/
theorem c6_title_before_url_witness :
    List.Sublist ["marina heights tower", "palm jumeirah"]
      (extract_search_phrases c6List) := by
  have h := c6_title_before_url c6List "Marina Heights Tower" "palm jumeirah"
    (by decide) (by decide) (by decide) (by decide) (by decide)
  have e1 : pyLower (pyStrip "Marina Heights Tower") = "marina heights tower" := by decide
  have e2 : pyLower (pyStrip "palm jumeirah") = "palm jumeirah" := by decide
  rw [e1, e2] at h
  exact h
